import Mathlib

/-!
# Scrooge-McDuck: the `first_s` aggregate (`src/aggregations/first.cpp`)

A shallow embedding of `FirstScroogeState`, of the four operations of
`FirstScroogeOperation` (`Initialize`, `Operation`, `Combine`, `Finalize`),
of the bind callback `BindDoubleFirst` and of the dispatcher
`GetFirstScroogeFunction`, followed by the properties that are proved about
them.

Conventions of the embedding:

* the payload type `T` is a parameter, as in the C++ template; the payload is
  only ever copied, never compared;
* `int64_t` ordering keys are integers in `Int`; the operations only compare
  and copy keys, no arithmetic is performed on them, so no wrap-around occurs.
  `Int64.Maximum` is `duckdb::NumericLimits<int64_t>::Maximum()`;
* an operation that mutates `*state` is a function returning the new state;
* an `AggregateFunction` is the record of what `first.cpp` decides about it:
  name, declared types, template arguments of the instantiation, bind
  callback; a `throw` is the `error` case of `Except`.
-/

namespace scrooge

/-- The value of `duckdb::NumericLimits<int64_t>::Maximum()`, `2^63 - 1`. -/
def Int64.Maximum : Int := 9223372036854775807

/-- The aggregate state, `template <class T> struct FirstScroogeState`. -/
structure FirstScroogeState (T : Type) where
  first : T
  earliest_time : Int
  executed : Bool
  deriving DecidableEq, Repr

/-- One input row as presented to `Operation`: `(x_data[xidx], y_data[yidx])`,
the payload and its ordering key. -/
abbrev Row (T : Type) := T × Int

namespace FirstScroogeOperation

variable {T : Type}

/-- The C++ `Initialize(STATE *state)`: writes `earliest_time` and `executed`; the
field `first` keeps whatever the memory held before. -/
def Initialize (state : FirstScroogeState T) : FirstScroogeState T :=
  { state with earliest_time := Int64.Maximum, executed := false }

/-- The C++ `Operation(state, _, x_data, y_data, _, _, xidx, yidx)` with
`x = x_data[xidx]` and `time = y_data[yidx]`. -/
def Operation (state : FirstScroogeState T) (x : T) (time : Int) : FirstScroogeState T :=
  if !state.executed || decide (time < state.earliest_time) then
    { state with earliest_time := time, first := x, executed := true }
  else
    state

/-- The C++ `Combine(const STATE &source, STATE *target, _)`: the returned state is
the new content of `*target`. -/
def Combine (source target : FirstScroogeState T) : FirstScroogeState T :=
  if !target.executed then
    source
  else if source.executed then
    if decide (target.earliest_time > source.earliest_time) then
      { target with earliest_time := source.earliest_time, first := source.first }
    else
      target
  else
    target

/-- The C++ `Finalize(result, _, state, target, mask, idx)`: `none` stands for
`mask.SetInvalid(idx)` (nothing is written to `target`), `some v` for
`target[idx] = v` (the validity mask is not touched). -/
def Finalize (state : FirstScroogeState T) : Option T :=
  if !state.executed then none else some state.first

/-- The C++ `IgnoreNull()`: the aggregate skips rows with a null operand. -/
def IgnoreNull : Bool := true

end FirstScroogeOperation

open FirstScroogeOperation

variable {T : Type}

/-- The host's update loop over one partition: `Operation` on each row, in
order, starting from `state`. -/
def accumulate (state : FirstScroogeState T) (rows : List (Row T)) : FirstScroogeState T :=
  rows.foldl (fun st r => Operation st r.1 r.2) state

/-- A single sequential pass: `Initialize` on the state memory `mem`, then
`Operation` on every row in order. -/
def sequential (mem : FirstScroogeState T) (rows : List (Row T)) : FirstScroogeState T :=
  accumulate (Initialize mem) rows

/-- A record of how a state was built: from `Initialize` by `Operation` calls
and by `Combine` calls whose source and target are built the same way. -/
inductive History (T : Type) where
  | init (mem : FirstScroogeState T) : History T
  | operation (h : History T) (x : T) (time : Int) : History T
  | combine (source target : History T) : History T

/-- The state a history produces. -/
def History.state : History T → FirstScroogeState T
  | .init mem => Initialize mem
  | .operation h x time => Operation h.state x time
  | .combine source target => Combine source.state target.state

/-- The rows that contributed to a history's state, directly or through
combined sources. -/
def History.rows : History T → List (Row T)
  | .init _ => []
  | .operation h x time => h.rows ++ [(x, time)]
  | .combine source target => target.rows ++ source.rows

/-- A binary merge tree over per-partition states. A leaf is one partition:
its state memory and its rows. A node merges two subtrees with `Combine`,
the first subtree providing the target and the second the source. -/
inductive MergeTree (T : Type) where
  | leaf (mem : FirstScroogeState T) (rows : List (Row T)) : MergeTree T
  | node (target source : MergeTree T) : MergeTree T

/-- The state at the root of a merge tree. -/
def MergeTree.state : MergeTree T → FirstScroogeState T
  | .leaf mem rows => sequential mem rows
  | .node target source => Combine source.state target.state

/-- The partitions at the leaves of a merge tree, left to right. -/
def MergeTree.partitions : MergeTree T → List (List (Row T))
  | .leaf _ rows => [rows]
  | .node target source => target.partitions ++ source.partitions

/-- The rows whose key is minimal in `rows`, one entry per position. -/
def minimalRows (rows : List (Row T)) : List (Row T) :=
  rows.filter (fun r => decide (∀ q ∈ rows, r.2 ≤ q.2))

/-- The minimum key of `rows` is attained by exactly one row. -/
def UniqueMinimum (rows : List (Row T)) : Prop := (minimalRows rows).length = 1

instance (rows : List (Row T)) : Decidable (UniqueMinimum rows) := by
  unfold UniqueMinimum; exact inferInstance

/-- The relation between a state and the rows that contributed to it: an empty
state has no rows and holds the sentinel key; a holding state holds one of its
rows, whose key is a lower bound of all keys. -/
def Tracks (s : FirstScroogeState T) (rows : List (Row T)) : Prop :=
  (s.executed = false → rows = [] ∧ s.earliest_time = Int64.Maximum) ∧
  (s.executed = true → (s.first, s.earliest_time) ∈ rows ∧ ∀ r ∈ rows, s.earliest_time ≤ r.2)

/-- The state holds the earliest row of `rows` whose key is minimal: every
row before it has a strictly larger key, every row after it a key at least
as large. -/
def HoldsEarliestMinimum (s : FirstScroogeState T) (rows : List (Row T)) : Prop :=
  ∃ pre post, rows = pre ++ (s.first, s.earliest_time) :: post ∧
    (∀ q ∈ pre, s.earliest_time < q.2) ∧ (∀ q ∈ post, s.earliest_time ≤ q.2)

/-- Two states of instantiations with payload types `A` and `B` agree up to
the payload conversion `f`: same `executed` flag, same `earliest_time` and,
when `executed` is true, the payload of the second is `f` of the first. -/
def Agrees {A B : Type} (f : A → B) (s : FirstScroogeState A) (s2 : FirstScroogeState B) :
    Prop :=
  s.executed = s2.executed ∧ s.earliest_time = s2.earliest_time ∧
    (s.executed = true → f s.first = s2.first)

/-- The second merge tree has the shape of the first (same partitioning,
same merge order) and its rows are the rows of the first with the payload
converted by `f`; the state memories at the leaves are unrelated. -/
def MergeTree.Widens {A B : Type} [DecidableEq B] (f : A → B) :
    MergeTree A → MergeTree B → Bool
  | .leaf _ rows, .leaf _ rows2 => decide (rows2 = rows.map (fun r => (f r.1, r.2)))
  | .node target source, .node target2 source2 =>
    MergeTree.Widens f target target2 && MergeTree.Widens f source source2
  | .leaf _ _, .node _ _ => false
  | .node _ _, .leaf _ _ => false

/-- Sign-extension of the two's-complement bit pattern `bits` of a `w`-bit
signed integer to the bit pattern of a 128-bit signed integer: the pattern is
kept when the sign bit is clear, and the bits `w .. 127` are set when it is
set. -/
def signExtend (w : Nat) (bits : Nat) : Nat :=
  if bits < 2 ^ (w - 1) then bits else bits + (2 ^ 128 - 2 ^ w)

/-- The signed value of the two's-complement bit pattern `bits` of width `w`. -/
def toSigned (w : Nat) (bits : Nat) : Int :=
  if bits < 2 ^ (w - 1) then (bits : Int) else (bits : Int) - 2 ^ w

/-! ## Type dispatch and decimal binding

The DuckDB types used by `BindDoubleFirst` and `GetFirstScroogeFunction` are
declared in DuckDB's headers; they are represented here by the data the two
functions read and write. -/

/-- The tags of `duckdb::LogicalTypeId`. -/
inductive LogicalTypeId where
  | INVALID | SQLNULL | UNKNOWN | ANY | USER | BOOLEAN
  | TINYINT | SMALLINT | INTEGER | BIGINT
  | DATE | TIME | TIMESTAMP_SEC | TIMESTAMP_MS | TIMESTAMP | TIMESTAMP_NS
  | DECIMAL | FLOAT | DOUBLE | CHAR | VARCHAR | BLOB | INTERVAL
  | UTINYINT | USMALLINT | UINTEGER | UBIGINT
  | TIMESTAMP_TZ | TIME_TZ | BIT | HUGEINT | POINTER | VALIDITY | UUID
  | STRUCT | LIST | MAP | TABLE | ENUM | AGGREGATE_STATE | LAMBDA | UNION
  deriving DecidableEq, Repr

/-- The tags of `duckdb::PhysicalType`, the physical classification of a
logical type. -/
inductive PhysicalType where
  | BOOL | UINT8 | INT8 | UINT16 | INT16 | UINT32 | INT32 | UINT64 | INT64
  | FLOAT | DOUBLE | INTERVAL | LIST | STRUCT | VARCHAR | INT128
  | UNKNOWN | BIT | INVALID
  deriving DecidableEq, Repr

/-- The precision (`width`) and `scale` carried by a decimal logical type. -/
structure DecimalTypeInfo where
  width : Nat
  scale : Nat
  deriving DecidableEq, Repr

/-- A `duckdb::LogicalType`: its tag, its physical classification as the host
determined it, and for a decimal its precision and scale. -/
structure LogicalType where
  id : LogicalTypeId
  physical_type : PhysicalType
  type_info : Option DecimalTypeInfo
  deriving DecidableEq, Repr

/-- The accessor `LogicalType::InternalType()`. -/
def LogicalType.InternalType (type : LogicalType) : PhysicalType := type.physical_type

/-- The constant `duckdb::LogicalType::TIMESTAMP_TZ`. -/
def LogicalType.TIMESTAMP_TZ : LogicalType :=
  { id := .TIMESTAMP_TZ, physical_type := .INT64, type_info := none }

/-- The C++ types that occur as template arguments of `BinaryAggregate` in
`first.cpp`. `hugeint_t` and `Hugeint` are two different names of the DuckDB
headers, written `duckdb::hugeint_t` and `duckdb::Hugeint` in the source. -/
inductive CType where
  | int8_t | int16_t | int32_t | int64_t
  | uint8_t | uint16_t | uint32_t | uint64_t
  | hugeint_t | Hugeint | float | double
  deriving DecidableEq, Repr

/-- The bind callbacks of this file that can be stored in an aggregate. -/
inductive BindCallback where
  | BindDoubleFirst
  deriving DecidableEq, Repr

/-- An argument expression as `BindDoubleFirst` reads it: its `return_type`. -/
structure Expression where
  return_type : LogicalType
  deriving DecidableEq, Repr

/-- A `duckdb::AggregateFunction` as `first.cpp` builds it: the name, the
declared argument and return types, the template arguments of the
instantiation (`T` of `FirstScroogeState<T>`, `A_TYPE`, `B_TYPE`,
`RESULT_TYPE`, and `OP::IgnoreNull()` of `OP`) and the bind callback. -/
structure AggregateFunction where
  name : String
  arguments : List LogicalType
  return_type : LogicalType
  state_type : CType
  a_type : CType
  b_type : CType
  result_type : CType
  op_ignore_null : Bool
  bind : Option BindCallback
  deriving DecidableEq, Repr

/-- The call `AggregateFunction::BinaryAggregate<FirstScroogeState<STATE>,
A_TYPE, B_TYPE, RESULT_TYPE, OP>(a_type, b_type, return_type)`: a function
without a name and without a bind callback. -/
def AggregateFunction.BinaryAggregate (STATE A_TYPE B_TYPE RESULT_TYPE : CType)
    (OP_IgnoreNull : Bool) (a_type b_type return_type : LogicalType) : AggregateFunction :=
  { name := "", arguments := [a_type, b_type], return_type := return_type,
    state_type := STATE, a_type := A_TYPE, b_type := B_TYPE, result_type := RESULT_TYPE,
    op_ignore_null := OP_IgnoreNull, bind := none }

/-- The exceptions thrown in `first.cpp`. -/
inductive Exception where
  | InternalException (msg : String)
  deriving DecidableEq, Repr

open AggregateFunction in
/-- The C++ `BindDoubleFirst(context, bound_function, arguments)`: the result is
the new content of `bound_function` (the returned bind data is `nullptr`);
`none` when `arguments[0]` does not exist. -/
def BindDoubleFirst (_bound_function : AggregateFunction) (arguments : List Expression) :
    Option AggregateFunction :=
  match arguments with
  | [] => none
  | arg0 :: _ =>
    let decimal_type := arg0.return_type
    let bound_function :=
      match decimal_type.InternalType with
      | .INT16 =>
        BinaryAggregate .int16_t .int16_t .int64_t .int16_t IgnoreNull
          decimal_type LogicalType.TIMESTAMP_TZ decimal_type
      | .INT32 =>
        BinaryAggregate .int32_t .int32_t .int64_t .int32_t IgnoreNull
          decimal_type LogicalType.TIMESTAMP_TZ decimal_type
      | .INT64 =>
        BinaryAggregate .int64_t .int64_t .int64_t .int64_t IgnoreNull
          decimal_type LogicalType.TIMESTAMP_TZ decimal_type
      | _ =>
        BinaryAggregate .Hugeint .Hugeint .int64_t .Hugeint IgnoreNull
          decimal_type LogicalType.TIMESTAMP_TZ decimal_type
    some { bound_function with name := "first_s" }

open AggregateFunction in
/-- The C++ `GetFirstScroogeFunction(type)`. -/
def GetFirstScroogeFunction (type : LogicalType) : Except Exception AggregateFunction :=
  match type.id with
  | .SMALLINT =>
    .ok (BinaryAggregate .int16_t .int16_t .int64_t .int16_t IgnoreNull
      type LogicalType.TIMESTAMP_TZ type)
  | .TINYINT =>
    .ok (BinaryAggregate .int8_t .int8_t .int64_t .int8_t IgnoreNull
      type LogicalType.TIMESTAMP_TZ type)
  | .INTEGER =>
    .ok (BinaryAggregate .int32_t .int32_t .int64_t .int32_t IgnoreNull
      type LogicalType.TIMESTAMP_TZ type)
  | .BIGINT =>
    .ok (BinaryAggregate .int64_t .int64_t .int64_t .int64_t IgnoreNull
      type LogicalType.TIMESTAMP_TZ type)
  | .DECIMAL =>
    let decimal_aggregate :=
      BinaryAggregate .hugeint_t .hugeint_t .int64_t .hugeint_t IgnoreNull
        type LogicalType.TIMESTAMP_TZ type
    .ok { decimal_aggregate with bind := some .BindDoubleFirst }
  | .FLOAT =>
    .ok (BinaryAggregate .float .float .int64_t .float IgnoreNull
      type LogicalType.TIMESTAMP_TZ type)
  | .DOUBLE =>
    .ok (BinaryAggregate .double .double .int64_t .double IgnoreNull
      type LogicalType.TIMESTAMP_TZ type)
  | .UTINYINT =>
    .ok (BinaryAggregate .uint8_t .uint8_t .int64_t .uint8_t IgnoreNull
      type LogicalType.TIMESTAMP_TZ type)
  | .USMALLINT =>
    .ok (BinaryAggregate .uint16_t .uint16_t .int64_t .uint16_t IgnoreNull
      type LogicalType.TIMESTAMP_TZ type)
  | .UINTEGER =>
    .ok (BinaryAggregate .uint32_t .uint32_t .int64_t .uint32_t IgnoreNull
      type LogicalType.TIMESTAMP_TZ type)
  | .UBIGINT =>
    .ok (BinaryAggregate .uint64_t .uint64_t .int64_t .uint64_t IgnoreNull
      type LogicalType.TIMESTAMP_TZ type)
  | .HUGEINT =>
    .ok (BinaryAggregate .hugeint_t .hugeint_t .int64_t .hugeint_t IgnoreNull
      type LogicalType.TIMESTAMP_TZ type)
  | _ => .error (.InternalException "Scrooge First Function only accept Numeric Inputs")

/-- The numeric tags of the specification: the twelve logical types the Type
Dispatcher must accept. -/
def numericTags : List LogicalTypeId :=
  [.TINYINT, .SMALLINT, .INTEGER, .BIGINT, .UTINYINT, .USMALLINT, .UINTEGER, .UBIGINT,
   .HUGEINT, .FLOAT, .DOUBLE, .DECIMAL]

/-- The native representation the specification assigns to each numeric tag;
for `DECIMAL` the representation the dispatcher starts from. -/
def nativeRepresentation : LogicalTypeId → Option CType
  | .TINYINT => some .int8_t
  | .SMALLINT => some .int16_t
  | .INTEGER => some .int32_t
  | .BIGINT => some .int64_t
  | .UTINYINT => some .uint8_t
  | .USMALLINT => some .uint16_t
  | .UINTEGER => some .uint32_t
  | .UBIGINT => some .uint64_t
  | .HUGEINT => some .hugeint_t
  | .FLOAT => some .float
  | .DOUBLE => some .double
  | .DECIMAL => some .hugeint_t
  | _ => none

/-! ## Auxiliary lemmas -/

theorem tracks_Initialize (mem : FirstScroogeState T) : Tracks (Initialize mem) [] := by
  constructor
  · intro _; exact ⟨rfl, rfl⟩
  · intro h; simp [Initialize] at h

theorem tracks_Operation {s : FirstScroogeState T} {rows : List (Row T)} (h : Tracks s rows)
    (x : T) (time : Int) : Tracks (Operation s x time) (rows ++ [(x, time)]) := by
  obtain ⟨he, hh⟩ := h
  unfold Operation
  cases hex : s.executed
  · obtain ⟨hr, _⟩ := he hex
    subst hr
    simp [Tracks]
  · obtain ⟨hm, hb⟩ := hh hex
    by_cases hlt : time < s.earliest_time
    · simp only [hlt, decide_True, Bool.or_true, if_true]
      refine ⟨by simp, fun _ => ⟨by simp, ?_⟩⟩
      intro r hr
      rcases List.mem_append.1 hr with hr | hr
      · exact le_trans (le_of_lt hlt) (hb r hr)
      · simp at hr; subst hr; exact le_refl _
    · simp only [hlt, decide_False, Bool.not_true, Bool.or_false, Bool.false_eq_true, if_false]
      refine ⟨fun h => by simp [hex] at h, fun _ => ⟨List.mem_append_left _ hm, ?_⟩⟩
      intro r hr
      rcases List.mem_append.1 hr with hr | hr
      · exact hb r hr
      · simp at hr; subst hr; exact not_lt.1 hlt

theorem tracks_Combine {src tgt : FirstScroogeState T} {rs rt : List (Row T)}
    (hs : Tracks src rs) (ht : Tracks tgt rt) : Tracks (Combine src tgt) (rt ++ rs) := by
  unfold Combine
  cases hte : tgt.executed
  · obtain ⟨hr, _⟩ := ht.1 hte
    subst hr
    simpa using hs
  · obtain ⟨hm, hb⟩ := ht.2 hte
    cases hse : src.executed
    · obtain ⟨hr, _⟩ := hs.1 hse
      subst hr
      simp only [Bool.not_true, Bool.false_eq_true, if_false, List.append_nil]
      exact ht
    · obtain ⟨hsm, hsb⟩ := hs.2 hse
      by_cases hlt : tgt.earliest_time > src.earliest_time
      · simp only [hlt, decide_True, Bool.not_true, Bool.false_eq_true, if_false, if_true]
        refine ⟨fun h => by simp [hte] at h, fun _ => ⟨List.mem_append_right _ hsm, ?_⟩⟩
        intro r hr
        rcases List.mem_append.1 hr with hr | hr
        · exact le_trans (le_of_lt hlt) (hb r hr)
        · exact hsb r hr
      · simp only [hlt, decide_False, Bool.not_true, Bool.false_eq_true, if_false]
        refine ⟨fun h => by simp [hte] at h, fun _ => ⟨List.mem_append_left _ hm, ?_⟩⟩
        intro r hr
        rcases List.mem_append.1 hr with hr | hr
        · exact hb r hr
        · exact le_trans (not_lt.1 hlt) (hsb r hr)

theorem accumulate_append (s : FirstScroogeState T) (rows more : List (Row T)) :
    accumulate s (rows ++ more) = accumulate (accumulate s rows) more := by
  simp [accumulate, List.foldl_append]

theorem tracks_accumulate {s : FirstScroogeState T} {rows : List (Row T)} (h : Tracks s rows)
    (more : List (Row T)) : Tracks (accumulate s more) (rows ++ more) := by
  induction more generalizing s rows with
  | nil => simpa [accumulate] using h
  | cons r more ih =>
    have := ih (tracks_Operation h r.1 r.2)
    simpa [accumulate] using this

theorem tracks_sequential (mem : FirstScroogeState T) (rows : List (Row T)) :
    Tracks (sequential mem rows) rows := by
  simpa [sequential] using tracks_accumulate (tracks_Initialize mem) rows

theorem tracks_history (h : History T) : Tracks h.state h.rows := by
  induction h with
  | init mem => exact tracks_Initialize mem
  | operation h x time ih => exact tracks_Operation ih x time
  | combine source target ihs iht => exact tracks_Combine ihs iht

theorem tracks_mergeTree (t : MergeTree T) : Tracks t.state t.partitions.flatten := by
  induction t with
  | leaf mem rows => simpa [MergeTree.state, MergeTree.partitions] using tracks_sequential mem rows
  | node target source iht ihs =>
    simpa [MergeTree.state, MergeTree.partitions] using tracks_Combine ihs iht

theorem tracks_perm {s : FirstScroogeState T} {rows rows2 : List (Row T)} (h : Tracks s rows)
    (hp : rows.Perm rows2) : Tracks s rows2 := by
  refine ⟨fun he => ?_, fun he => ?_⟩
  · obtain ⟨hr, hk⟩ := h.1 he
    subst hr
    exact ⟨hp.symm.eq_nil, hk⟩
  · obtain ⟨hm, hb⟩ := h.2 he
    exact ⟨hp.subset hm, fun r hr => hb r (hp.symm.subset hr)⟩

theorem executed_of_tracks_ne_nil {s : FirstScroogeState T} {rows : List (Row T)}
    (h : Tracks s rows) (hne : rows ≠ []) : s.executed = true := by
  cases he : s.executed
  · exact absurd (h.1 he).1 hne
  · rfl

theorem mem_minimalRows_of_tracks {s : FirstScroogeState T} {rows : List (Row T)}
    (h : Tracks s rows) (he : s.executed = true) :
    (s.first, s.earliest_time) ∈ minimalRows rows := by
  obtain ⟨hm, hb⟩ := h.2 he
  simp only [minimalRows, List.mem_filter, decide_eq_true_eq]
  exact ⟨hm, hb⟩

theorem ne_nil_of_uniqueMinimum {rows : List (Row T)} (hu : UniqueMinimum rows) : rows ≠ [] := by
  intro h
  subst h
  simp [UniqueMinimum, minimalRows] at hu

theorem Finalize_eq_of_tracks {s s2 : FirstScroogeState T} {rows : List (Row T)}
    (h : Tracks s rows) (h2 : Tracks s2 rows) (hu : UniqueMinimum rows) :
    Finalize s = Finalize s2 := by
  have hne := ne_nil_of_uniqueMinimum hu
  have he := executed_of_tracks_ne_nil h hne
  have he2 := executed_of_tracks_ne_nil h2 hne
  obtain ⟨a, ha⟩ := List.length_eq_one.1 hu
  have hm := mem_minimalRows_of_tracks h he
  have hm2 := mem_minimalRows_of_tracks h2 he2
  rw [ha, List.mem_singleton] at hm hm2
  have hf : s.first = s2.first := by
    have := hm.trans hm2.symm
    exact (Prod.mk.inj this).1
  simp [Finalize, he, he2, hf]

theorem Operation_of_not_executed (s : FirstScroogeState T) (he : s.executed = false)
    (x : T) (time : Int) : Operation s x time = ⟨x, time, true⟩ := by
  simp [Operation, he]

theorem Operation_of_lt (s : FirstScroogeState T) (x : T) (time : Int)
    (hlt : time < s.earliest_time) : Operation s x time = ⟨x, time, true⟩ := by
  simp [Operation, hlt]

theorem Operation_of_executed_le (s : FirstScroogeState T) (he : s.executed = true)
    (x : T) (time : Int) (hle : s.earliest_time ≤ time) : Operation s x time = s := by
  simp [Operation, he, not_lt.2 hle]

theorem holdsEarliest_Operation {s : FirstScroogeState T} {rows : List (Row T)}
    (he : s.executed = true) (h : HoldsEarliestMinimum s rows) (x : T) (time : Int) :
    (Operation s x time).executed = true ∧
      HoldsEarliestMinimum (Operation s x time) (rows ++ [(x, time)]) := by
  obtain ⟨pre, post, hrows, hpre, hpost⟩ := h
  by_cases hlt : time < s.earliest_time
  · rw [Operation_of_lt s x time hlt]
    refine ⟨rfl, rows, [], by simp, ?_, by simp⟩
    intro q hq
    show time < q.2
    rw [hrows] at hq
    rcases List.mem_append.1 hq with hq | hq
    · exact lt_trans hlt (hpre q hq)
    · rcases List.mem_cons.1 hq with hq | hq
      · subst hq; exact hlt
      · exact lt_of_lt_of_le hlt (hpost q hq)
  · rw [Operation_of_executed_le s he x time (not_lt.1 hlt)]
    refine ⟨he, pre, post ++ [(x, time)], by simp [hrows], hpre, ?_⟩
    intro q hq
    rcases List.mem_append.1 hq with hq | hq
    · exact hpost q hq
    · simp at hq; subst hq; exact not_lt.1 hlt

theorem holdsEarliest_accumulate (more : List (Row T)) :
    ∀ (s : FirstScroogeState T) (rows : List (Row T)), s.executed = true →
      HoldsEarliestMinimum s rows →
      (accumulate s more).executed = true ∧
        HoldsEarliestMinimum (accumulate s more) (rows ++ more) := by
  induction more with
  | nil => intro s rows he h; simpa [accumulate] using ⟨he, h⟩
  | cons r more ih =>
    intro s rows he h
    obtain ⟨he2, h2⟩ := holdsEarliest_Operation he h r.1 r.2
    have := ih (Operation s r.1 r.2) (rows ++ [(r.1, r.2)]) he2 h2
    simpa [accumulate] using this

theorem holdsEarliest_sequential (mem : FirstScroogeState T) (rows : List (Row T))
    (hne : rows ≠ []) :
    (sequential mem rows).executed = true ∧ HoldsEarliestMinimum (sequential mem rows) rows := by
  cases rows with
  | nil => exact absurd rfl hne
  | cons r rows =>
    have h0 : Operation (Initialize mem) r.1 r.2 = ⟨r.1, r.2, true⟩ :=
      Operation_of_not_executed _ rfl _ _
    have hstart : HoldsEarliestMinimum (⟨r.1, r.2, true⟩ : FirstScroogeState T) [r] :=
      ⟨[], [], by simp, by simp, by simp⟩
    have := holdsEarliest_accumulate rows ⟨r.1, r.2, true⟩ [r] rfl hstart
    simpa [sequential, accumulate, h0] using this

/-! ## Order-independence -/

/-- C1. Order-independence under a unique minimum: when the minimum key of
`rows` is attained by exactly one row, `parts` is a split of `rows` into
contiguous partitions (empty ones allowed) and `tree` is a binary merge tree
whose leaves are the per-partition states, in any order and with either
operand of a merge as the target, then `Finalize` of the merged state equals
`Finalize` of the single sequential pass over `rows`. -/
theorem order_independence_unique_minimum (mem : FirstScroogeState T) (rows : List (Row T))
    (hunique : UniqueMinimum rows) (parts : List (List (Row T))) (hsplit : parts.flatten = rows)
    (tree : MergeTree T) (hleaves : tree.partitions.Perm parts) :
    Finalize tree.state = Finalize (sequential mem rows) := by
  have hperm : tree.partitions.flatten.Perm rows := hsplit ▸ hleaves.flatten
  exact Finalize_eq_of_tracks (tracks_perm (tracks_mergeTree tree) hperm)
    (tracks_sequential mem rows) hunique

/-- The rows `[(10,5), (20,3), (30,7)]` split as `[(10,5)]`, `[]`,
`[(20,3), (30,7)]` and merged as `P3 ⊕ (P2 ⊕ P1)` give the sequential
result `20`. -/
theorem order_independence_unique_minimum_witness :
    UniqueMinimum ([(10, 5), (20, 3), (30, 7)] : List (Row Int)) ∧
    Finalize (MergeTree.node (.leaf ⟨0, 0, true⟩ [(20, 3), (30, 7)])
        (.node (.leaf ⟨1, 4, false⟩ []) (.leaf ⟨2, 1, true⟩ [((10 : Int), 5)]))).state
      = Finalize (sequential ⟨7, 7, true⟩ [(10, 5), (20, 3), (30, 7)]) ∧
    Finalize (sequential ⟨7, 7, true⟩ [((10 : Int), 5), (20, 3), (30, 7)]) = some 20 :=
  ⟨by decide,
   order_independence_unique_minimum ⟨7, 7, true⟩ [(10, 5), (20, 3), (30, 7)] (by decide)
     [[(10, 5)], [], [(20, 3), (30, 7)]] (by decide)
     (.node (.leaf ⟨0, 0, true⟩ [(20, 3), (30, 7)])
        (.node (.leaf ⟨1, 4, false⟩ []) (.leaf ⟨2, 1, true⟩ [(10, 5)])))
     (by decide),
   by decide⟩

/-! ## Sequential accumulation -/

/-- C2. Sequential result with arrival-order tie-break: for a non-empty row
sequence, `Initialize` followed by `Operation` on each row in order finalizes
to the payload of the row at the smallest index `i` among the rows whose key
is the minimum key; and `Operation` on a holding state with a key equal to
the stored minimum leaves the state, hence the stored payload, as it is. -/
theorem sequential_earliest_minimum (mem : FirstScroogeState T) (rows : List (Row T))
    (hne : rows ≠ []) :
    (∃ i, ∃ hi : i < rows.length,
      (∀ j, ∀ hj : j < rows.length, rows[i].2 ≤ rows[j].2) ∧
      (∀ j, ∀ hj : j < rows.length, rows[j].2 = rows[i].2 → i ≤ j) ∧
      Finalize (sequential mem rows) = some rows[i].1) ∧
    (∀ (s : FirstScroogeState T) (x : T), s.executed = true →
      Operation s x s.earliest_time = s) := by
  refine ⟨?_, fun s x he => Operation_of_executed_le s he x _ (le_refl _)⟩
  obtain ⟨he, pre, post, hrows, hpre, hpost⟩ := holdsEarliest_sequential mem rows hne
  generalize sequential mem rows = st at he hrows hpre hpost
  subst hrows
  have hi : pre.length < (pre ++ (st.first, st.earliest_time) :: post).length := by simp
  have hget : (pre ++ (st.first, st.earliest_time) :: post)[pre.length]
      = (st.first, st.earliest_time) := by
    rw [List.getElem_append_right (le_refl _)]
    simp
  refine ⟨pre.length, hi, ?_, ?_, ?_⟩
  · intro j hj
    rw [hget]
    have hmem := List.getElem_mem hj
    rcases List.mem_append.1 hmem with hq | hq
    · exact le_of_lt (hpre _ hq)
    · rcases List.mem_cons.1 hq with hq | hq
      · rw [hq]
      · exact hpost _ hq
  · intro j hj heq
    rw [hget] at heq
    by_contra hlt
    have hjlt : j < pre.length := not_le.1 hlt
    have hjpre : (pre ++ (st.first, st.earliest_time) :: post)[j] = pre[j] :=
      List.getElem_append_left hjlt
    have := hpre _ (List.getElem_mem hjlt)
    rw [← hjpre, heq] at this
    exact lt_irrefl _ this
  · rw [hget]
    simp [Finalize, he]

/-- On the rows `[(1,5), (2,3), (3,3)]` the minimum key `3` is first attained
at index 1, and the sequential pass returns that row's payload `2`. -/
theorem sequential_earliest_minimum_witness :
    ([(1, 5), (2, 3), (3, 3)] : List (Row Int)) ≠ [] ∧
    Finalize (sequential ⟨0, 0, false⟩ ([(1, 5), (2, 3), (3, 3)] : List (Row Int))) = some 2 ∧
    ((∃ i, ∃ hi : i < ([(1, 5), (2, 3), (3, 3)] : List (Row Int)).length,
      (∀ j, ∀ hj : j < ([(1, 5), (2, 3), (3, 3)] : List (Row Int)).length,
        ([(1, 5), (2, 3), (3, 3)] : List (Row Int))[i].2
          ≤ ([(1, 5), (2, 3), (3, 3)] : List (Row Int))[j].2) ∧
      (∀ j, ∀ hj : j < ([(1, 5), (2, 3), (3, 3)] : List (Row Int)).length,
        ([(1, 5), (2, 3), (3, 3)] : List (Row Int))[j].2
          = ([(1, 5), (2, 3), (3, 3)] : List (Row Int))[i].2 → i ≤ j) ∧
      Finalize (sequential ⟨0, 0, false⟩ ([(1, 5), (2, 3), (3, 3)] : List (Row Int)))
        = some ([(1, 5), (2, 3), (3, 3)] : List (Row Int))[i].1) ∧
    (∀ (s : FirstScroogeState Int) (x : Int), s.executed = true →
      Operation s x s.earliest_time = s)) :=
  ⟨by decide, by decide,
   sequential_earliest_minimum ⟨0, 0, false⟩ [(1, 5), (2, 3), (3, 3)] (by decide)⟩

/-! ## State invariants -/

/-- C3. Holding-state invariant: for every state built from `Initialize` by
any interleaving of `Operation` and `Combine` calls (sources built the same
way), if `executed` is true then `earliest_time` is the minimum key over all
contributing rows (a lower bound that is attained) and `first` is the payload
of a contributing row whose key is that minimum. -/
theorem holding_state_invariant (h : History T) (hex : h.state.executed = true) :
    (∀ r ∈ h.rows, h.state.earliest_time ≤ r.2) ∧
    (h.state.first, h.state.earliest_time) ∈ h.rows :=
  ⟨((tracks_history h).2 hex).2, ((tracks_history h).2 hex).1⟩

/-- A target built from `(1,9), (2,4)` combined with a source built from
`(3,6)` is holding, and the invariant applies to it. -/
theorem holding_state_invariant_witness :
    (History.combine (.operation (.init ⟨0, 0, true⟩) 3 6)
        (.operation (.operation (.init ⟨0, 0, false⟩) 1 9) (2 : Int) 4)).state.executed = true ∧
    ((∀ r ∈ (History.combine (.operation (.init ⟨0, 0, true⟩) 3 6)
        (.operation (.operation (.init ⟨0, 0, false⟩) 1 9) (2 : Int) 4)).rows,
      (History.combine (.operation (.init ⟨0, 0, true⟩) 3 6)
        (.operation (.operation (.init ⟨0, 0, false⟩) 1 9) (2 : Int) 4)).state.earliest_time
        ≤ r.2) ∧
    ((History.combine (.operation (.init ⟨0, 0, true⟩) 3 6)
        (.operation (.operation (.init ⟨0, 0, false⟩) 1 9) (2 : Int) 4)).state.first,
      (History.combine (.operation (.init ⟨0, 0, true⟩) 3 6)
        (.operation (.operation (.init ⟨0, 0, false⟩) 1 9) (2 : Int) 4)).state.earliest_time)
      ∈ (History.combine (.operation (.init ⟨0, 0, true⟩) 3 6)
        (.operation (.operation (.init ⟨0, 0, false⟩) 1 9) (2 : Int) 4)).rows) :=
  ⟨by decide,
   holding_state_invariant (.combine (.operation (.init ⟨0, 0, true⟩) 3 6)
     (.operation (.operation (.init ⟨0, 0, false⟩) 1 9) 2 4)) (by decide)⟩

/-- C4. Empty-state sentinel invariant: every state built from `Initialize`
through `Operation` and `Combine` (sources built the same way) that has
`executed = false` has `earliest_time` equal to the maximum 64-bit signed
integer; in particular, `Combine` into such an empty target from an empty
source built the same way leaves an empty state holding the sentinel. -/
theorem empty_state_sentinel (h : History T) (hex : h.state.executed = false) :
    h.state.earliest_time = Int64.Maximum ∧
    (∀ src : History T, src.state.executed = false →
      (Combine src.state h.state).executed = false ∧
      (Combine src.state h.state).earliest_time = Int64.Maximum) := by
  refine ⟨((tracks_history h).1 hex).2, fun src hsrc => ?_⟩
  have hc : Combine src.state h.state = src.state := by simp [Combine, hex]
  rw [hc]
  exact ⟨hsrc, ((tracks_history src).1 hsrc).2⟩

/-- Two freshly initialized states, combined, are an empty state; the
invariant applies to it. -/
theorem empty_state_sentinel_witness :
    (History.combine (.init ⟨0, 3, true⟩) (.init ⟨(1 : Int), 5, true⟩)).state.executed = false ∧
    (History.combine (.init ⟨0, 3, true⟩) (.init ⟨(1 : Int), 5, true⟩)).state.earliest_time
      = 9223372036854775807 :=
  ⟨by decide,
   (empty_state_sentinel (.combine (.init ⟨0, 3, true⟩) (.init ⟨(1 : Int), 5, true⟩))
     (by decide)).1⟩

/-! ## Null result -/

/-- C5. Null result iff no rows: for every split `parts` of a row sequence
`rows` and every merge tree over the per-partition states, `Finalize` marks
the result invalid exactly when the number of accumulated rows is zero, and
otherwise it returns the field `first` of the merged state; `Finalize`
directly after `Initialize` marks the result invalid. -/
theorem null_iff_no_rows (rows : List (Row T)) (parts : List (List (Row T)))
    (hsplit : parts.flatten = rows) (tree : MergeTree T)
    (hleaves : tree.partitions.Perm parts) :
    (Finalize tree.state = none ↔ rows.length = 0) ∧
    (rows.length ≠ 0 → Finalize tree.state = some tree.state.first) ∧
    (∀ mem : FirstScroogeState T, Finalize (Initialize mem) = none) := by
  have hperm : tree.partitions.flatten.Perm rows := hsplit ▸ hleaves.flatten
  have ht := tracks_perm (tracks_mergeTree tree) hperm
  have hiff : tree.state.executed = false ↔ rows.length = 0 := by
    constructor
    · intro he
      simp [(ht.1 he).1]
    · intro hlen
      cases he : tree.state.executed
      · rfl
      · have hmem := (ht.2 he).1
        rw [List.length_eq_zero.1 hlen] at hmem
        simp at hmem
  refine ⟨?_, ?_, fun mem => rfl⟩
  · rw [← hiff]
    cases he : tree.state.executed <;> simp [Finalize, he]
  · intro hlen
    have he : tree.state.executed = true := by
      cases he : tree.state.executed
      · exact absurd (hiff.1 he) hlen
      · rfl
    simp [Finalize, he]

/-- Two empty partitions merge to a null result; the partitions `[]` and
`[(4,2), (5,1)]` merge to the valid result `5`. -/
theorem null_iff_no_rows_witness :
    Finalize (MergeTree.node (.leaf ⟨(0 : Int), 0, true⟩ []) (.leaf ⟨1, 1, true⟩ [])).state = none ∧
    Finalize (MergeTree.node (.leaf ⟨(0 : Int), 0, true⟩ [])
      (.leaf ⟨1, 1, true⟩ [(4, 2), (5, 1)])).state = some 5 :=
  ⟨(null_iff_no_rows ([] : List (Row Int)) [[], []] (by decide)
      (.node (.leaf ⟨0, 0, true⟩ []) (.leaf ⟨1, 1, true⟩ [])) (by decide)).1.2 (by decide),
   by decide⟩

/-! ## Round trip -/

/-- C6. Single-row round trip: for every payload `p` and every key `k`, also
the sentinel `Int64.Maximum`, `Initialize` followed by one `Operation` on
`(p, k)` followed by `Finalize` returns the valid result `p`. -/
theorem single_row_round_trip (mem : FirstScroogeState T) (p : T) (k : Int) :
    Finalize (Operation (Initialize mem) p k) = some p ∧
    Finalize (Operation (Initialize mem) p Int64.Maximum) = some p := by
  simp [Finalize, Operation, Initialize]

/-! ## Combine -/

/-- C7. The rule of `Combine` for every pair `(source, target)`: if
`target.executed` is false the new target is `source` in all three fields,
whatever `source.executed` is; otherwise, if `source.executed` is true and
`source.earliest_time < target.earliest_time`, the new target has the payload
and key of `source` and `executed = true`; otherwise the new target is the old
one in all three fields. The source is a `const` reference: `Combine` returns
the new target only. -/
theorem Combine_rule (source target : FirstScroogeState T) :
    (target.executed = false → Combine source target = source) ∧
    (target.executed = true → source.executed = true →
      source.earliest_time < target.earliest_time →
      Combine source target = ⟨source.first, source.earliest_time, true⟩) ∧
    (target.executed = true →
      ¬ (source.executed = true ∧ source.earliest_time < target.earliest_time) →
      Combine source target = target) := by
  refine ⟨fun ht => ?_, fun ht hs hlt => ?_, fun ht hn => ?_⟩
  · simp [Combine, ht]
  · simp [Combine, ht, hs, hlt]
  · cases hs : source.executed
    · simp [Combine, ht, hs]
    · have hnlt : ¬ source.earliest_time < target.earliest_time := fun hlt => hn ⟨hs, hlt⟩
      simp [Combine, ht, hs, hnlt]

/-- The three cases of the rule on concrete states. -/
theorem Combine_rule_witness :
    Combine (⟨1, 7, false⟩ : FirstScroogeState Int) ⟨2, 3, false⟩ = ⟨1, 7, false⟩ ∧
    Combine (⟨1, 2, true⟩ : FirstScroogeState Int) ⟨2, 3, true⟩ = ⟨1, 2, true⟩ ∧
    Combine (⟨1, 3, true⟩ : FirstScroogeState Int) ⟨2, 3, true⟩ = ⟨2, 3, true⟩ :=
  ⟨(Combine_rule (⟨1, 7, false⟩ : FirstScroogeState Int) ⟨2, 3, false⟩).1 rfl,
   (Combine_rule (⟨1, 2, true⟩ : FirstScroogeState Int) ⟨2, 3, true⟩).2.1 rfl rfl (by decide),
   (Combine_rule (⟨1, 3, true⟩ : FirstScroogeState Int) ⟨2, 3, true⟩).2.2 rfl (by decide)⟩

/-- C8. `Combine` is associative: with `t ⊕ s` the target that results from
`Combine(source = s, target = t)`, `(a ⊕ b) ⊕ c = a ⊕ (b ⊕ c)` as whole
states, for all states `a`, `b`, `c`, empty or holding, tied or not. -/
theorem Combine_assoc (a b c : FirstScroogeState T) :
    Combine c (Combine b a) = Combine (Combine c b) a := by
  obtain ⟨af, ak, ae⟩ := a
  obtain ⟨bf, bk, be⟩ := b
  obtain ⟨cf, ck, ce⟩ := c
  cases ae <;> cases be <;> cases ce <;> simp only [Combine] <;>
    split_ifs <;> simp_all <;> omega

/-- C9. `Combine` is commutative in effect when there is no tie: for states
`a` and `b` built from `Initialize` by `Operation` and `Combine`, not both
holding with equal keys, `Combine(source = a, target = b)` and
`Combine(source = b, target = a)` leave their targets with the same
`executed` flag, the same `earliest_time` and, when `executed` is true, the
same payload. -/
theorem Combine_comm_of_no_tie (a b : History T)
    (hno_tie : ¬ (a.state.executed = true ∧ b.state.executed = true ∧
      a.state.earliest_time = b.state.earliest_time)) :
    (Combine a.state b.state).executed = (Combine b.state a.state).executed ∧
    (Combine a.state b.state).earliest_time = (Combine b.state a.state).earliest_time ∧
    ((Combine a.state b.state).executed = true →
      (Combine a.state b.state).first = (Combine b.state a.state).first) := by
  have ha := (tracks_history a).1
  have hb := (tracks_history b).1
  generalize a.state = sa at ha hb hno_tie
  generalize b.state = sb at ha hb hno_tie
  obtain ⟨af, ak, ae⟩ := sa
  obtain ⟨bf, bk, be⟩ := sb
  cases ae <;> cases be
  · have h1 := (ha rfl).2
    have h2 := (hb rfl).2
    simp only at h1 h2
    simp [Combine, h1, h2]
  · simp [Combine]
  · simp [Combine]
  · have hne : ak ≠ bk := fun h => hno_tie ⟨rfl, rfl, h⟩
    simp only [Combine]
    split_ifs <;> simp_all <;> omega

/-- A state holding `(1,5)` and a state holding `(2,3)`: both merge orders
give `(2,3)`. -/
theorem Combine_comm_of_no_tie_witness :
    Combine (History.operation (.init ⟨0, 0, false⟩) (1 : Int) 5).state
        (History.operation (.init ⟨0, 0, false⟩) (2 : Int) 3).state = ⟨2, 3, true⟩ ∧
    Combine (History.operation (.init ⟨0, 0, false⟩) (2 : Int) 3).state
        (History.operation (.init ⟨0, 0, false⟩) (1 : Int) 5).state = ⟨2, 3, true⟩ ∧
    (Combine (History.operation (.init ⟨0, 0, false⟩) (1 : Int) 5).state
        (History.operation (.init ⟨0, 0, false⟩) (2 : Int) 3).state).earliest_time
      = (Combine (History.operation (.init ⟨0, 0, false⟩) (2 : Int) 3).state
        (History.operation (.init ⟨0, 0, false⟩) (1 : Int) 5).state).earliest_time :=
  ⟨by decide, by decide,
   (Combine_comm_of_no_tie (.operation (.init ⟨0, 0, false⟩) (1 : Int) 5)
     (.operation (.init ⟨0, 0, false⟩) (2 : Int) 3) (by decide)).2.1⟩

/-- C10. A tie at the global minimum can diverge from the sequential result:
when both states are holding with equal keys, `Combine` leaves the target as
it is; so for the rows `[(1,100), (2,100)]` split into `[(1,100)]` and
`[(2,100)]` the merge with the first partition's state as target finalizes to
`1`, the merge with the second's as target finalizes to `2`, the sequential
pass over the whole sequence finalizes to `1`, and the second merge order
differs from it. -/
theorem tie_diverges_from_sequential (source target : FirstScroogeState T)
    (hs : source.executed = true) (ht : target.executed = true)
    (hk : source.earliest_time = target.earliest_time)
    (mem1 mem2 mem : FirstScroogeState Int) :
    Combine source target = target ∧
    Finalize (Combine (sequential mem2 [(2, 100)]) (sequential mem1 [(1, 100)])) = some 1 ∧
    Finalize (Combine (sequential mem1 [(1, 100)]) (sequential mem2 [(2, 100)])) = some 2 ∧
    Finalize (sequential mem [(1, 100), (2, 100)]) = some 1 ∧
    Finalize (Combine (sequential mem1 [(1, 100)]) (sequential mem2 [(2, 100)]))
      ≠ Finalize (sequential mem [(1, 100), (2, 100)]) := by
  refine ⟨?_, ?_⟩
  · simp [Combine, hs, ht, hk]
  · simp [sequential, accumulate, Operation, Initialize, Combine, Finalize]

/-- The tie `(1,100)` against `(2,100)`: the target is kept in either order. -/
theorem tie_diverges_from_sequential_witness :
    Combine (⟨2, 100, true⟩ : FirstScroogeState Int) ⟨1, 100, true⟩ = ⟨1, 100, true⟩ ∧
    Combine (⟨1, 100, true⟩ : FirstScroogeState Int) ⟨2, 100, true⟩ = ⟨2, 100, true⟩ :=
  ⟨(tie_diverges_from_sequential (⟨2, 100, true⟩ : FirstScroogeState Int) ⟨1, 100, true⟩
      rfl rfl rfl ⟨0, 0, false⟩ ⟨0, 0, false⟩ ⟨0, 0, false⟩).1,
   (tie_diverges_from_sequential (⟨1, 100, true⟩ : FirstScroogeState Int) ⟨2, 100, true⟩
      rfl rfl rfl ⟨0, 0, false⟩ ⟨0, 0, false⟩ ⟨0, 0, false⟩).1⟩

/-! ## Payload conversion -/

theorem agrees_Initialize {A B : Type} (f : A → B) (mem : FirstScroogeState A)
    (mem2 : FirstScroogeState B) : Agrees f (Initialize mem) (Initialize mem2) := by
  simp [Agrees, Initialize]

theorem agrees_Operation {A B : Type} (f : A → B) {s : FirstScroogeState A}
    {s2 : FirstScroogeState B} (h : Agrees f s s2) (x : A) (time : Int) :
    Agrees f (Operation s x time) (Operation s2 (f x) time) := by
  obtain ⟨he, hk, hf⟩ := h
  unfold Operation
  rw [← he, ← hk]
  split
  · exact ⟨rfl, rfl, fun _ => rfl⟩
  · exact ⟨he, hk, hf⟩

theorem agrees_Combine {A B : Type} (f : A → B) {src tgt : FirstScroogeState A}
    {src2 tgt2 : FirstScroogeState B} (hs : Agrees f src src2) (ht : Agrees f tgt tgt2) :
    Agrees f (Combine src tgt) (Combine src2 tgt2) := by
  obtain ⟨hse, hsk, hsf⟩ := hs
  obtain ⟨hte, htk, htf⟩ := ht
  unfold Combine
  rw [← hse, ← hsk, ← hte, ← htk]
  split
  · exact ⟨hse, hsk, hsf⟩
  · split
    · split
      · rename_i hsrc _
        exact ⟨rfl, rfl, fun _ => hsf hsrc⟩
      · exact ⟨hte, htk, htf⟩
    · exact ⟨hte, htk, htf⟩

theorem agrees_accumulate {A B : Type} (f : A → B) (rows : List (Row A)) :
    ∀ (s : FirstScroogeState A) (s2 : FirstScroogeState B), Agrees f s s2 →
      Agrees f (accumulate s rows) (accumulate s2 (rows.map (fun r => (f r.1, r.2)))) := by
  induction rows with
  | nil => intro s s2 h; simpa [accumulate] using h
  | cons r rows ih =>
    intro s s2 h
    have := ih _ _ (agrees_Operation f h r.1 r.2)
    simpa [accumulate] using this

theorem agrees_mergeTree {A B : Type} [DecidableEq B] (f : A → B) (t : MergeTree A) :
    ∀ t2 : MergeTree B, MergeTree.Widens f t t2 = true → Agrees f t.state t2.state := by
  induction t with
  | leaf mem rows =>
    intro t2 h
    cases t2 with
    | leaf mem2 rows2 =>
      simp only [MergeTree.Widens, decide_eq_true_eq] at h
      subst h
      exact agrees_accumulate f rows _ _ (agrees_Initialize f mem mem2)
    | node _ _ => simp [MergeTree.Widens] at h
  | node target source iht ihs =>
    intro t2 h
    cases t2 with
    | leaf _ _ => simp [MergeTree.Widens] at h
    | node target2 source2 =>
      simp only [MergeTree.Widens, Bool.and_eq_true] at h
      exact agrees_Combine f (ihs _ h.2) (iht _ h.1)

theorem Finalize_map_of_agrees {A B : Type} (f : A → B) {s : FirstScroogeState A}
    {s2 : FirstScroogeState B} (h : Agrees f s s2) :
    (Finalize s).map f = Finalize s2 := by
  obtain ⟨he, _, hf⟩ := h
  unfold Finalize
  rw [← he]
  cases hex : s.executed
  · simp
  · simp [hf hex]

theorem signExtend_spec (w : Nat) (hw : w = 16 ∨ w = 32 ∨ w = 64) (v : Nat) (hv : v < 2 ^ w) :
    signExtend w v < 2 ^ 128 ∧ toSigned 128 (signExtend w v) = toSigned w v := by
  rcases hw with rfl | rfl | rfl <;>
    · unfold signExtend toSigned
      norm_num at hv ⊢
      split_ifs <;> constructor <;> omega

theorem Finalize_mem_of_mergeTree (t : MergeTree T) (v : T) (h : Finalize t.state = some v) :
    ∃ part ∈ t.partitions, ∃ r ∈ part, r.1 = v := by
  have ht := tracks_mergeTree t
  cases he : t.state.executed
  · simp [Finalize, he] at h
  · simp only [Finalize, he, Bool.not_true, Bool.false_eq_true, if_false, Option.some.injEq] at h
    obtain ⟨part, hpart, hr⟩ := List.mem_flatten.1 (ht.2 he).1
    exact ⟨part, hpart, _, hr, h⟩

/-- C11. Decimal width equivalence: for a narrow backing width `w` of 16, 32
or 64 bits, a merge tree `narrow` over partitions whose payloads are `w`-bit
patterns, and a merge tree `wide` with the same partitioning and merge order
over the same rows with the payloads sign-extended to 128 bits, the result of
`Finalize` on the `w`-bit instantiation, sign-extended, is the result of
`Finalize` on the 128-bit instantiation (same validity, same bits); the
narrow result is a `w`-bit pattern and its sign-extension is a 128-bit pattern
of the same signed value. -/
theorem decimal_width_equivalence (w : Nat) (hw : w = 16 ∨ w = 32 ∨ w = 64)
    (narrow wide : MergeTree Nat)
    (hfits : ∀ part ∈ narrow.partitions, ∀ r ∈ part, r.1 < 2 ^ w)
    (hsame : MergeTree.Widens (signExtend w) narrow wide = true) :
    (Finalize narrow.state).map (signExtend w) = Finalize wide.state ∧
    (∀ v, Finalize narrow.state = some v →
      v < 2 ^ w ∧ signExtend w v < 2 ^ 128 ∧ toSigned 128 (signExtend w v) = toSigned w v) := by
  refine ⟨Finalize_map_of_agrees _ (agrees_mergeTree _ narrow wide hsame), fun v hv => ?_⟩
  obtain ⟨part, hpart, r, hr, hrv⟩ := Finalize_mem_of_mergeTree narrow v hv
  have hlt : v < 2 ^ w := hrv ▸ hfits part hpart r hr
  exact ⟨hlt, signExtend_spec w hw v hlt⟩

/-- The 16-bit rows `(0xFFFF, 7)`, `(5, 9)`, `(40000, 2)` in two partitions:
the narrow run returns the pattern `40000` (the value `-25536`), the wide run
its sign-extension `2^128 - 25536`. -/
theorem decimal_width_equivalence_witness :
    (Finalize (MergeTree.node (.leaf ⟨0, 0, false⟩ [(65535, 7)])
        (.leaf ⟨3, 1, true⟩ [(5, 9), (40000, 2)])).state).map (signExtend 16)
      = Finalize (MergeTree.node (.leaf ⟨9, 9, true⟩ [(2 ^ 128 - 1, 7)])
        (.leaf ⟨0, 0, false⟩ [(5, 9), (2 ^ 128 - 25536, 2)])).state ∧
    Finalize (MergeTree.node (.leaf ⟨0, 0, false⟩ [(65535, 7)])
        (.leaf ⟨3, 1, true⟩ [(5, 9), (40000, 2)])).state = some 40000 ∧
    toSigned 16 40000 = -25536 ∧
    toSigned 128 (2 ^ 128 - 25536) = -25536 :=
  ⟨(decimal_width_equivalence 16 (Or.inl rfl)
      (.node (.leaf ⟨0, 0, false⟩ [(65535, 7)]) (.leaf ⟨3, 1, true⟩ [(5, 9), (40000, 2)]))
      (.node (.leaf ⟨9, 9, true⟩ [(2 ^ 128 - 1, 7)])
        (.leaf ⟨0, 0, false⟩ [(5, 9), (2 ^ 128 - 25536, 2)]))
      (by decide) (by decide)).1,
   by decide, by norm_num [toSigned], by norm_num [toSigned]⟩

/-! ## Accumulate and concatenation -/

theorem Combine_Operation (u s : FirstScroogeState T) (x : T) (time : Int) :
    Combine (Operation u x time) s = Operation (Combine u s) x time := by
  obtain ⟨uf, uk, ue⟩ := u
  obtain ⟨sf, sk, se⟩ := s
  cases ue <;> cases se <;> simp only [Combine, Operation] <;>
    split_ifs <;> simp_all <;> omega

theorem Combine_accumulate (rows : List (Row T)) :
    ∀ u s : FirstScroogeState T, Combine (accumulate u rows) s = accumulate (Combine u s) rows := by
  induction rows with
  | nil => intro u s; rfl
  | cons r rows ih =>
    intro u s
    have := ih (Operation u r.1 r.2) s
    simpa [accumulate, Combine_Operation] using this

theorem agrees_id_accumulate (rows : List (Row T)) (s s2 : FirstScroogeState T)
    (h : Agrees id s s2) : Agrees id (accumulate s rows) (accumulate s2 rows) := by
  have := agrees_accumulate id rows s s2 h
  simpa using this

/-- C16. `Operation` (Accumulate) as a frame rule: on a state with
`executed = true` and a row whose key is not strictly smaller than
`earliest_time` the state is left as it is in all three fields; on a state
with `executed = false`, or with a key strictly smaller than `earliest_time`,
the new state is exactly `(first = payload, earliest_time = key,
executed = true)`. -/
theorem Operation_frame (state : FirstScroogeState T) (x : T) (time : Int) :
    (state.executed = true → state.earliest_time ≤ time → Operation state x time = state) ∧
    (state.executed = false ∨ time < state.earliest_time →
      Operation state x time = ⟨x, time, true⟩) := by
  refine ⟨fun he hle => Operation_of_executed_le state he x time hle, fun h => ?_⟩
  rcases h with h | h
  · exact Operation_of_not_executed state h x time
  · exact Operation_of_lt state x time h

/-- A holding state with key `3`: the keys `3` and `8` leave it as it is, the
key `2` replaces it; an empty state takes any row. -/
theorem Operation_frame_witness :
    Operation (⟨1, 3, true⟩ : FirstScroogeState Int) 7 3 = ⟨1, 3, true⟩ ∧
    Operation (⟨1, 3, true⟩ : FirstScroogeState Int) 7 8 = ⟨1, 3, true⟩ ∧
    Operation (⟨1, 3, true⟩ : FirstScroogeState Int) 7 2 = ⟨7, 2, true⟩ ∧
    Operation (⟨1, 3, false⟩ : FirstScroogeState Int) 7 8 = ⟨7, 8, true⟩ :=
  ⟨(Operation_frame (⟨1, 3, true⟩ : FirstScroogeState Int) 7 3).1 rfl (by decide),
   (Operation_frame (⟨1, 3, true⟩ : FirstScroogeState Int) 7 8).1 rfl (by decide),
   (Operation_frame (⟨1, 3, true⟩ : FirstScroogeState Int) 7 2).2 (Or.inr (by decide)),
   (Operation_frame (⟨1, 3, false⟩ : FirstScroogeState Int) 7 8).2 (Or.inl rfl)⟩

/-- C17. `Combine` is a homomorphism from concatenation when the earlier
partition is the target: for all row sequences `A` and `B`,
`Combine(source = state of B, target = state of A)`, each state being
`Initialize` followed by the sequential `Operation` pass, agrees with the
state of the sequential pass over `A ++ B` on `executed`, on `earliest_time`
and, when `executed` is true, on the payload, with no assumption on the
minimum key. -/
theorem Combine_concat (memA memB mem : FirstScroogeState T) (A B : List (Row T)) :
    (Combine (sequential memB B) (sequential memA A)).executed
      = (sequential mem (A ++ B)).executed ∧
    (Combine (sequential memB B) (sequential memA A)).earliest_time
      = (sequential mem (A ++ B)).earliest_time ∧
    ((Combine (sequential memB B) (sequential memA A)).executed = true →
      (Combine (sequential memB B) (sequential memA A)).first
        = (sequential mem (A ++ B)).first) := by
  have hstart : Agrees id (Combine (Initialize memB) (sequential memA A)) (sequential mem A) := by
    have hseq : Agrees id (sequential memA A) (sequential mem A) :=
      agrees_id_accumulate A _ _ (agrees_Initialize id memA mem)
    cases A with
    | nil => simp [sequential, accumulate, Combine, Initialize, Agrees]
    | cons r A =>
      have he := (holdsEarliest_sequential memA (r :: A) (by simp)).1
      have hc : Combine (Initialize memB) (sequential memA (r :: A)) = sequential memA (r :: A) := by
        simp [Combine, he, Initialize]
      rw [hc]
      exact hseq
  have hall := agrees_id_accumulate B _ _ hstart
  have hl : Combine (sequential memB B) (sequential memA A)
      = accumulate (Combine (Initialize memB) (sequential memA A)) B := by
    simp [sequential, Combine_accumulate]
  have hr : sequential mem (A ++ B) = accumulate (sequential mem A) B := by
    simp [sequential, accumulate_append]
  rw [hl, hr]
  exact hall

/-! ## Type Dispatcher -/

/-- C12. The Type Dispatcher fails exactly on non-numeric types:
`GetFirstScroogeFunction` raises its error, the exception with the message
that only numeric inputs are accepted, if and only if the tag of the logical
type is not one of the twelve numeric tags; for each of the twelve it returns
a bundle without error. The specification's `UnsupportedTypeError` is the
`duckdb::InternalException` of the source. -/
theorem dispatcher_fails_exactly_on_non_numeric (type : LogicalType) :
    (GetFirstScroogeFunction type
        = .error (.InternalException "Scrooge First Function only accept Numeric Inputs")
      ↔ type.id ∉ numericTags) ∧
    ((∃ f, GetFirstScroogeFunction type = .ok f) ↔ type.id ∈ numericTags) := by
  obtain ⟨id, pt, ti⟩ := type
  cases id <;> simp [GetFirstScroogeFunction, numericTags]

/-- C13. Declared signature of every dispatched bundle: for every supported
logical type `type` the bundle of `GetFirstScroogeFunction type` declares the
argument types `(type, TIMESTAMP_TZ)` in that order and the return type
`type`, and the null-skip flag of its operation is true; the declared payload
and return type carry the precision and scale of the input type, so a
`DECIMAL` keeps them. -/
theorem dispatcher_signature (type : LogicalType) (hsupported : type.id ∈ numericTags) :
    ∃ f, GetFirstScroogeFunction type = .ok f ∧
      f.arguments = [type, LogicalType.TIMESTAMP_TZ] ∧
      f.return_type = type ∧
      f.op_ignore_null = true ∧
      (f.arguments.map LogicalType.type_info).head? = some type.type_info ∧
      f.return_type.type_info = type.type_info := by
  obtain ⟨id, pt, ti⟩ := type
  cases id <;> simp [numericTags] at hsupported <;>
    simp [GetFirstScroogeFunction, AggregateFunction.BinaryAggregate, IgnoreNull]

/-- The bundle for `DECIMAL(4,2)`: arguments `(DECIMAL(4,2), TIMESTAMP_TZ)`,
return type `DECIMAL(4,2)`. -/
theorem dispatcher_signature_witness :
    (⟨.DECIMAL, .INT16, some ⟨4, 2⟩⟩ : LogicalType).id ∈ numericTags ∧
    ∃ f, GetFirstScroogeFunction ⟨.DECIMAL, .INT16, some ⟨4, 2⟩⟩ = .ok f ∧
      f.arguments = [⟨.DECIMAL, .INT16, some ⟨4, 2⟩⟩, LogicalType.TIMESTAMP_TZ] ∧
      f.return_type = ⟨.DECIMAL, .INT16, some ⟨4, 2⟩⟩ ∧
      f.op_ignore_null = true ∧
      (f.arguments.map LogicalType.type_info).head? = some (some ⟨4, 2⟩) ∧
      f.return_type.type_info = some ⟨4, 2⟩ :=
  ⟨by decide, dispatcher_signature ⟨.DECIMAL, .INT16, some ⟨4, 2⟩⟩ (by decide)⟩

/-! ## Decimal Width Specializer -/

/-- C14. The Decimal Width Specializer picks exactly the classified width:
for a decimal argument type `arg0.return_type` whose physical classification
is `INT16`, `INT32` or `INT64`, `BindDoubleFirst` replaces the bound function
by the instantiation whose state payload, input payload and result are
`int16_t`, `int32_t` or `int64_t` respectively, with the declared argument
types `(decimal_type, TIMESTAMP_TZ)` and the return type `decimal_type`, the
logical type of the argument itself (same precision, same scale). -/
theorem BindDoubleFirst_narrow (bound_function : AggregateFunction) (arg0 : Expression)
    (rest : List Expression) (c : CType)
    (hclass : (arg0.return_type.InternalType = .INT16 ∧ c = .int16_t) ∨
      (arg0.return_type.InternalType = .INT32 ∧ c = .int32_t) ∨
      (arg0.return_type.InternalType = .INT64 ∧ c = .int64_t)) :
    ∃ g, BindDoubleFirst bound_function (arg0 :: rest) = some g ∧
      g.state_type = c ∧ g.a_type = c ∧ g.result_type = c ∧
      g.arguments = [arg0.return_type, LogicalType.TIMESTAMP_TZ] ∧
      g.return_type = arg0.return_type := by
  rcases hclass with ⟨h, rfl⟩ | ⟨h, rfl⟩ | ⟨h, rfl⟩ <;>
    simp [BindDoubleFirst, h, AggregateFunction.BinaryAggregate]

/-- The argument type `DECIMAL(9,3)` classified `INT32`: the dispatcher's
bundle is replaced by the `int32_t` instantiation with the same logical
type. -/
theorem BindDoubleFirst_narrow_witness :
    BindDoubleFirst
        { name := "", arguments := [⟨.DECIMAL, .INT32, some ⟨9, 3⟩⟩, LogicalType.TIMESTAMP_TZ],
          return_type := ⟨.DECIMAL, .INT32, some ⟨9, 3⟩⟩, state_type := .hugeint_t,
          a_type := .hugeint_t, b_type := .int64_t, result_type := .hugeint_t,
          op_ignore_null := true, bind := some .BindDoubleFirst }
        [⟨⟨.DECIMAL, .INT32, some ⟨9, 3⟩⟩⟩, ⟨LogicalType.TIMESTAMP_TZ⟩]
      = some
        { name := "first_s",
          arguments := [⟨.DECIMAL, .INT32, some ⟨9, 3⟩⟩, LogicalType.TIMESTAMP_TZ],
          return_type := ⟨.DECIMAL, .INT32, some ⟨9, 3⟩⟩, state_type := .int32_t,
          a_type := .int32_t, b_type := .int64_t, result_type := .int32_t,
          op_ignore_null := true, bind := none } ∧
    ∃ g, BindDoubleFirst
        { name := "", arguments := [⟨.DECIMAL, .INT32, some ⟨9, 3⟩⟩, LogicalType.TIMESTAMP_TZ],
          return_type := ⟨.DECIMAL, .INT32, some ⟨9, 3⟩⟩, state_type := .hugeint_t,
          a_type := .hugeint_t, b_type := .int64_t, result_type := .hugeint_t,
          op_ignore_null := true, bind := some .BindDoubleFirst }
        (⟨⟨.DECIMAL, .INT32, some ⟨9, 3⟩⟩⟩ :: [⟨LogicalType.TIMESTAMP_TZ⟩]) = some g ∧
      g.state_type = .int32_t ∧ g.a_type = .int32_t ∧ g.result_type = .int32_t ∧
      g.arguments = [⟨.DECIMAL, .INT32, some ⟨9, 3⟩⟩, LogicalType.TIMESTAMP_TZ] ∧
      g.return_type = ⟨.DECIMAL, .INT32, some ⟨9, 3⟩⟩ :=
  ⟨by decide,
   BindDoubleFirst_narrow _ ⟨⟨.DECIMAL, .INT32, some ⟨9, 3⟩⟩⟩ [⟨LogicalType.TIMESTAMP_TZ⟩]
     .int32_t (Or.inr (Or.inl ⟨rfl, rfl⟩))⟩

/-- C15. The code at a `DECIMAL(38,2)` argument classified `INT128`, where
the Decimal Width Specializer must keep the wide instantiation: the dispatcher
produces the bundle instantiated with `hugeint_t` for state, input and
result, and the default branch of `BindDoubleFirst` replaces it by a bundle
instantiated with `Hugeint`, another type. The wide 128-bit-backed
instantiation of the dispatcher is not kept. -/
theorem BindDoubleFirst_default_replaces_hugeint_t :
    GetFirstScroogeFunction ⟨.DECIMAL, .INT128, some ⟨38, 2⟩⟩
      = .ok
        { name := "", arguments := [⟨.DECIMAL, .INT128, some ⟨38, 2⟩⟩, LogicalType.TIMESTAMP_TZ],
          return_type := ⟨.DECIMAL, .INT128, some ⟨38, 2⟩⟩, state_type := .hugeint_t,
          a_type := .hugeint_t, b_type := .int64_t, result_type := .hugeint_t,
          op_ignore_null := true, bind := some .BindDoubleFirst } ∧
    BindDoubleFirst
        { name := "", arguments := [⟨.DECIMAL, .INT128, some ⟨38, 2⟩⟩, LogicalType.TIMESTAMP_TZ],
          return_type := ⟨.DECIMAL, .INT128, some ⟨38, 2⟩⟩, state_type := .hugeint_t,
          a_type := .hugeint_t, b_type := .int64_t, result_type := .hugeint_t,
          op_ignore_null := true, bind := some .BindDoubleFirst }
        [⟨⟨.DECIMAL, .INT128, some ⟨38, 2⟩⟩⟩, ⟨LogicalType.TIMESTAMP_TZ⟩]
      = some
        { name := "first_s",
          arguments := [⟨.DECIMAL, .INT128, some ⟨38, 2⟩⟩, LogicalType.TIMESTAMP_TZ],
          return_type := ⟨.DECIMAL, .INT128, some ⟨38, 2⟩⟩, state_type := .Hugeint,
          a_type := .Hugeint, b_type := .int64_t, result_type := .Hugeint,
          op_ignore_null := true, bind := none } ∧
    CType.Hugeint ≠ CType.hugeint_t :=
  ⟨rfl, by decide, by decide⟩

/-- C18. The dispatcher's storage type matches the declared logical type: for
every supported tag, `GetFirstScroogeFunction` instantiates the state, the
input and the result payload with the native representation of the tag
(`TINYINT` `int8_t`, `SMALLINT` `int16_t`, `INTEGER` `int32_t`, `BIGINT`
`int64_t`, `UTINYINT` `uint8_t`, `USMALLINT` `uint16_t`, `UINTEGER`
`uint32_t`, `UBIGINT` `uint64_t`, `HUGEINT` `hugeint_t`, `FLOAT` `float`,
`DOUBLE` `double`), the ordering key is always `int64_t`, and for `DECIMAL`
the payload is `hugeint_t` and the bind callback is `BindDoubleFirst`. -/
theorem dispatcher_storage_types (type : LogicalType) (c : CType)
    (hnative : nativeRepresentation type.id = some c) :
    ∃ f, GetFirstScroogeFunction type = .ok f ∧
      f.state_type = c ∧ f.a_type = c ∧ f.result_type = c ∧ f.b_type = .int64_t ∧
      (type.id = .DECIMAL → c = .hugeint_t ∧ f.bind = some .BindDoubleFirst) := by
  obtain ⟨id, pt, ti⟩ := type
  cases id <;> simp [nativeRepresentation] at hnative <;> subst hnative <;>
    simp [GetFirstScroogeFunction, AggregateFunction.BinaryAggregate]

/-- The tags `UINTEGER` and `DECIMAL`. -/
theorem dispatcher_storage_types_witness :
    (∃ f, GetFirstScroogeFunction ⟨.UINTEGER, .UINT32, none⟩ = .ok f ∧
      f.state_type = .uint32_t ∧ f.a_type = .uint32_t ∧ f.result_type = .uint32_t ∧
      f.b_type = .int64_t) ∧
    (∃ f, GetFirstScroogeFunction ⟨.DECIMAL, .INT64, some ⟨18, 4⟩⟩ = .ok f ∧
      f.state_type = .hugeint_t ∧ f.bind = some .BindDoubleFirst) :=
  ⟨(dispatcher_storage_types ⟨.UINTEGER, .UINT32, none⟩ .uint32_t rfl).imp
      fun _ h => ⟨h.1, h.2.1, h.2.2.1, h.2.2.2.1, h.2.2.2.2.1⟩,
   (dispatcher_storage_types ⟨.DECIMAL, .INT64, some ⟨18, 4⟩⟩ .hugeint_t rfl).imp
      fun _ h => ⟨h.1, h.2.1, (h.2.2.2.2.2 rfl).2⟩⟩

end scrooge
